import Mathlib

set_option linter.unusedVariables false

/-!
Shallow embedding of the OSU bird-image-analysis client pipeline.

Text is modelled as `List Char`; machine integers as `Nat`/`Int`
(JavaScript `Date.getTime()` values are modelled as `Nat` milliseconds,
with a missing `lastModified` as `Option.none`).  Each definition below is
translated from a named function of the repository source; the only
definition taken from the specification instead of the source is the
primary-table serializer (marked in its doc comment), because the Lambda
aggregator that writes the CSV is not part of the repository checkout.
-/

namespace BirdPipeline

/-- Model of JS `String.prototype.startsWith`: `pat` occurs at the start of `s`. -/
def startsWithL : List Char → List Char → Bool
  | [], _ => true
  | _ :: _, [] => false
  | p :: ps, c :: cs => p == c && startsWithL ps cs

/-- Model of JS `String.prototype.endsWith`. -/
def endsWithL (pat s : List Char) : Bool :=
  startsWithL pat.reverse s.reverse

/-- Model of JS `String.prototype.includes`. -/
def containsSub (pat s : List Char) : Bool :=
  (List.range (s.length + 1)).any fun i => startsWithL pat (s.drop i)

/-- ASCII lower-casing, the fragment of JS `toLowerCase` needed for file suffixes. -/
def lowerChar (c : Char) : Char :=
  if 65 ≤ c.toNat ∧ c.toNat ≤ 90 then Char.ofNat (c.toNat + 32) else c

/-- Case-insensitive `endsWith`, used to state the spec's case-insensitivity claim. -/
def endsWithCIL (pat s : List Char) : Bool :=
  endsWithL (pat.map lowerChar) (s.map lowerChar)

/-- Whitespace recognised by JS `String.prototype.trim` (ASCII fragment). -/
def isWSChar (c : Char) : Bool :=
  c == ' ' || c == '\t' || c == '\n' || c == '\r' || c == '\x0b' || c == '\x0c'

/-- Model of JS `String.prototype.trim`. -/
def trimJS (l : List Char) : List Char :=
  ((l.dropWhile isWSChar).reverse.dropWhile isWSChar).reverse

/-- Decimal digit test (the radix-10 digit set used by JS `parseInt`). -/
def isDigitC (c : Char) : Bool :=
  decide (48 ≤ c.toNat) && decide (c.toNat ≤ 57)

/-- Decimal digit character for a value below ten. -/
def digitChar : Nat → Char
  | 0 => '0' | 1 => '1' | 2 => '2' | 3 => '3' | 4 => '4'
  | 5 => '5' | 6 => '6' | 7 => '7' | 8 => '8' | _ => '9'

/-- Numeric value of a decimal digit character. -/
def digitVal (c : Char) : Nat := c.toNat - 48

/-- Little-endian decimal digits of `n`, with explicit fuel so the
definition is structural and reduces inside `decide`/`rfl`. -/
def natToRevDigitsAux : Nat → Nat → List Char
  | 0, _ => []
  | fuel + 1, n =>
    if n < 10 then [digitChar n]
    else digitChar (n % 10) :: natToRevDigitsAux fuel (n / 10)

/-- Decimal rendering of a natural number (model of JS number-to-string for
the non-negative integers appearing in result tables). -/
def natRepr (n : Nat) : List Char :=
  (natToRevDigitsAux (n + 1) n).reverse

/-- Value of a big-endian decimal digit string. -/
def digitsVal (ds : List Char) : Nat :=
  ds.foldl (fun a c => 10 * a + digitVal c) 0

/-- Model of JS `parseInt(s)` on the strings arising from result tables:
leading whitespace is skipped, then the maximal decimal-digit span is read;
an empty span yields `NaN`, modelled as `none`.  (Sign and hex forms never
occur in the table format, whose counts are non-negative decimals.) -/
def jsParseInt (s : List Char) : Option Nat :=
  let ds := (s.dropWhile isWSChar).takeWhile isDigitC
  if ds.isEmpty then none else some (digitsVal ds)

/-! ### The shared object store and the JS array sort -/

/-- One stored object as the Amplify storage API exposes it: its key (the
enhanced viewer's API calls the same field `path`), an optional
last-modified time in milliseconds, an optional size, and its content. -/
structure S3Obj where
  key : List Char
  lastModified : Option Nat
  size : Option Nat
  body : List Char
  deriving DecidableEq

/-- The shared object store: the bucket's objects in listing order. -/
structure Store where
  objs : List S3Obj
  deriving DecidableEq

/-- Insertion step of the ECMAScript `Array.prototype.sort` model: the new
element is placed before the first element the comparator does not order
strictly after it, which preserves stability. -/
def jsInsert (c : α → α → Int) (x : α) : List α → List α
  | [] => [x]
  | y :: ys => if c x y ≤ 0 then x :: y :: ys else y :: jsInsert c x ys

/-- Model of ECMAScript `Array.prototype.sort` with comparator `c`: a stable
sort placing `u` before `v` whenever `c u v ≤ 0` (for consistent
comparators this is the order the ECMAScript specification mandates). -/
def jsSort (c : α → α → Int) : List α → List α
  | [] => []
  | x :: xs => jsInsert c x (jsSort c xs)

/-- Effective date used by `ResultsChecker.checkForResults`:
`a.lastModified || new Date(0)` defaults a missing date to the epoch. -/
def effDate (e : S3Obj) : Nat := e.lastModified.getD 0

/-- Comparator of `checkForResults`:
`(a, b) => dateB.getTime() - dateA.getTime()` with the epoch default. -/
def cmpPrimary (a b : S3Obj) : Int := (effDate b : Int) - (effDate a : Int)

/-- Amplify `list({prefix})`: the objects whose key starts with the prefix,
in listing order; a pure read returning the store unchanged. -/
def listOp (pre : List Char) (s : Store) : List S3Obj × Store :=
  (s.objs.filter fun e => startsWithL pre e.key, s)

/-- Amplify `downloadData({key})`: the body of the first object with the
key, or `none` when the download fails; a pure read. -/
def downloadOp (k : List Char) (s : Store) : Option (List Char) × Store :=
  ((s.objs.find? fun e => e.key == k).map S3Obj.body, s)

/-- Amplify `getUrl({key})`: the presigned URL is produced by the external
service, modelled as a function `urlF` of the key; a pure read. -/
def getUrlOp (urlF : List Char → List Char) (k : List Char) (s : Store) :
    List Char × Store :=
  (urlF k, s)

/-! ### ResultsChecker.checkForResults (src/src/components/ResultsChecker.tsx) -/

/-- One entry delivered to `onResultsFound`. -/
structure ProcResult where
  filename : List Char
  birdCount : Nat
  extractionFolder : List Char
  csvKey : List Char
  downloadUrl : List Char
  timestamp : List Char
  deriving DecidableEq

/-- Lines of a CSV body as `checkForResults` computes them:
`csvText.split('\n').filter(line => line.trim())`. -/
def csvLines (text : List Char) : List (List Char) :=
  (text.splitOn '\n').filter fun l => !(trimJS l).isEmpty

/-- Per-line extraction of `checkForResults`'s parsing loop: the line is
split on commas, the first two components are destructured as
`[filename, birdCount]`, and the pair counts only when both are truthy
(non-empty; a missing second component is `undefined`, hence falsy); the
count is `parseInt(birdCount) || 0`. -/
def parsePair (line : List Char) : Option (List Char × Nat) :=
  match line.splitOn ',' with
  | [] => none
  | f :: rest =>
    if f.isEmpty then none
    else
      match rest with
      | [] => none
      | bc :: _ =>
        if bc.isEmpty then none else some (f, (jsParseInt bc).getD 0)

/-- The `(itemName, count)` pairs the parsing loop of `checkForResults`
iterates over: the data lines (all non-blank lines after the header) that
pass the truthiness check. -/
def parseDataPairs (text : List Char) : List (List Char × Nat) :=
  ((csvLines text).drop 1).filterMap parsePair

/-- First starting position at which the regex
`/bird-results-(.+)\.csv/` of `checkForResults` can match: the literal
`bird-results-` occurs there and `.csv` occurs at least one character
later, so the greedy capture is non-empty. -/
def regexStart (key : List Char) : Option Nat :=
  (List.range (key.length + 1)).find? fun i =>
    startsWithL ("bird-results-".toList) (key.drop i) &&
      (List.range (key.length + 1)).any fun j =>
        decide (i + 14 ≤ j) && startsWithL (".csv".toList) (key.drop j)

/-- End position of the greedy capture: the last occurrence of `.csv`
compatible with a non-empty capture starting at `i + 13`. -/
def regexCaptureEnd (key : List Char) (i : Nat) : Option Nat :=
  ((List.range (key.length + 1)).filter fun j =>
    decide (i + 14 ≤ j) && startsWithL (".csv".toList) (key.drop j)).getLast?

/-- Timestamp extraction of `checkForResults`:
`file.key.match(/bird-results-(.+)\.csv/)`, then every dash of the capture
is replaced by a colon; `Unknown` when the regex does not match. -/
def extractTimestamp (key : List Char) : List Char :=
  match regexStart key with
  | none => "Unknown".toList
  | some i =>
    match regexCaptureEnd key i with
    | none => "Unknown".toList
    | some j =>
      ((key.drop (i + 13)).take (j - (i + 13))).map fun c =>
        if c == '-' then ':' else c

/-- Processing of one listed CSV entry by `checkForResults`, given the body
the download returned: files whose non-blank lines number fewer than two are
skipped (`continue`), otherwise the loop aggregates the parsed pairs into
one `ProcResult`. -/
def processBody (urlF : List Char → List Char) (e : S3Obj) (body : List Char) :
    Option ProcResult :=
  let lines := csvLines body
  if lines.length < 2 then none
  else
    let pairs := (lines.drop 1).filterMap parsePair
    some
      { filename := natRepr pairs.length ++ " images processed".toList
        birdCount := (pairs.map Prod.snd).sum
        extractionFolder := e.key
        csvKey := e.key
        downloadUrl := urlF e.key
        timestamp := extractTimestamp e.key }

/-- Per-file step of `checkForResults`, threading the store through the
storage calls; a failed download corresponds to the caught exception and
contributes nothing. -/
def processEntry (urlF : List Char → List Char) (e : S3Obj) (st : Store) :
    Option ProcResult × Store :=
  let (body?, st1) := downloadOp e.key st
  match body? with
  | none => (none, st1)
  | some body =>
    match processBody urlF e body with
    | none => (none, st1)
    | some r =>
      let (url, st2) := getUrlOp urlF e.key st1
      (some { r with downloadUrl := url }, st2)

/-- Discovery of primary tables as `checkForResults` performs it: the
listing of `public/results/` filtered to keys ending in `.csv` and sorted
by descending last-modified time (missing dates default to the epoch). -/
def discoveredPrimary (s : Store) : List S3Obj :=
  jsSort cmpPrimary
    (((listOp ("public/results/".toList) s).1).filter fun e =>
      endsWithL (".csv".toList) e.key)

/-- One iteration of the `for (const file of recentFiles)` loop of
`checkForResults`: the accumulated result list plus the threaded store. -/
def checkStep (urlF : List Char → List Char) (acc : List ProcResult × Store)
    (e : S3Obj) : List ProcResult × Store :=
  let (r?, st1) := processEntry urlF e acc.2
  match r? with
  | none => (acc.1, st1)
  | some r => (acc.1 ++ [r], st1)

/-- The whole of `checkForResults` with explicit store threading: list,
filter, sort, then process at most the five most recent files, returning
the list handed to `onResultsFound` together with the final store. -/
def checkForResultsSt (urlF : List Char → List Char) (s : Store) :
    List ProcResult × Store :=
  let csvFiles := discoveredPrimary s
  if csvFiles.length = 0 then ([], s)
  else (csvFiles.take 5).foldl (checkStep urlF) ([], s)

/-- The result list `checkForResults` delivers to `onResultsFound`. -/
def checkResults (urlF : List Char → List Char) (s : Store) : List ProcResult :=
  (checkForResultsSt urlF s).1

/-! ### EnhancedCSVViewer.loadCSVFiles (src/src/components/EnhancedCSVViewer.tsx) -/

/-- One entry of the enhanced viewer's list. -/
structure CsvFileM where
  path : List Char
  lastModified : Option Nat
  size : Option Nat
  downloadUrl : Option (List Char)
  deriving DecidableEq

/-- Comparator of `loadCSVFiles`:
`(a, b) => new Date(b.lastModified!).getTime() - new Date(a.lastModified!).getTime()`.
On a missing date `new Date(undefined).getTime()` is `NaN`, the subtraction
is `NaN`, and ECMAScript SortCompare coerces a NaN comparator result to
`+0`, so such an entry compares equal to everything. -/
def cmpEnhanced (a b : CsvFileM) : Int :=
  match b.lastModified, a.lastModified with
  | some tb, some ta => (tb : Int) - (ta : Int)
  | _, _ => 0

/-- The fixed name pattern of the enhanced viewer:
`item.path?.includes('enhanced_bird_results') && item.path?.endsWith('.csv')`. -/
def enhancedPred (e : S3Obj) : Bool :=
  containsSub ("enhanced_bird_results".toList) e.key &&
    endsWithL (".csv".toList) e.key

/-- The whole of `loadCSVFiles`: list `public/results/`, filter to enhanced
CSVs, attach a download URL to each (the external presigned-URL service is
`urlF`; the caught failure branch never fires in the model), then sort with
the viewer's comparator. -/
def loadCSVFiles (urlF : List Char → List Char) (s : Store) : List CsvFileM :=
  let filtered := ((listOp ("public/results/".toList) s).1).filter enhancedPred
  let withUrls := filtered.map fun e =>
    { path := e.key
      lastModified := e.lastModified
      size := e.size
      downloadUrl := some (urlF e.key) : CsvFileM }
  jsSort cmpEnhanced withUrls

/-! ### S3FileUploader (src/src/components/S3FileUploader.tsx) -/

/-- Character replacement of `uploadToS3`:
`new Date().toISOString().replace(/[:.]/g, '-')` replaces every colon and
every period by a dash. -/
def sanitizeChar (c : Char) : Char :=
  if c == ':' || c == '.' then '-' else c

/-- The sanitized timestamp of `uploadToS3`. -/
def sanitizeTs (t : List Char) : List Char := t.map sanitizeChar

/-- Object key derived by `uploadToS3`:
`uploads/` ++ sanitized timestamp ++ `-` ++ original file name. -/
def deriveKey (t name : List Char) : List Char :=
  "uploads/".toList ++ sanitizeTs t ++ '-' :: name

/-- Character classes of a fixed-shape string: a decimal digit or one
fixed literal character. -/
inductive CharShape where
  | digit : CharShape
  | lit : Char → CharShape
  deriving DecidableEq

/-- Whether a string matches a shape position by position. -/
def matchesShape : List CharShape → List Char → Bool
  | [], [] => true
  | CharShape.digit :: ps, c :: cs => isDigitC c && matchesShape ps cs
  | CharShape.lit a :: ps, c :: cs => a == c && matchesShape ps cs
  | _, _ => false

/-- The 24-character shape `YYYY-MM-DDTHH:mm:ss.sssZ` that JS
`Date.prototype.toISOString` always produces. -/
def isoSpec : List CharShape :=
  [CharShape.digit, CharShape.digit, CharShape.digit, CharShape.digit,
   CharShape.lit '-', CharShape.digit, CharShape.digit,
   CharShape.lit '-', CharShape.digit, CharShape.digit,
   CharShape.lit 'T', CharShape.digit, CharShape.digit,
   CharShape.lit ':', CharShape.digit, CharShape.digit,
   CharShape.lit ':', CharShape.digit, CharShape.digit,
   CharShape.lit '.', CharShape.digit, CharShape.digit, CharShape.digit,
   CharShape.lit 'Z']

/-- Whether a string is a well-formed `toISOString` rendering. -/
def isoShape (t : List Char) : Bool := matchesShape isoSpec t

/-- Client-side acceptance test of `handleFiles`: a file passes when its
MIME type is a zip type or starts with `image/`. -/
def handleFilesAccepts (mime : List Char) : Bool :=
  mime == "application/zip".toList ||
    mime == "application/x-zip-compressed".toList ||
    startsWithL ("image/".toList) mime

/-! ### Storage triggers and access rules (src/amplify/storage/resource.ts) -/

/-- The image suffixes of the backend's `imageExtensions` constant. -/
def imageSuffixes : List (List Char) :=
  [".jpg".toList, ".jpeg".toList, ".png".toList, ".gif".toList, ".bmp".toList]

/-- The S3 `OBJECT_CREATED` notification rules wired in the backend: one
(prefix, suffix) pair per `addEventNotification` call, `.zip` plus each
image extension, under both `uploads/` and `public/uploads/`.  S3 filter
rules compare prefix and suffix literally (case-sensitively). -/
def notificationRules : List (List Char × List Char) :=
  [("uploads/".toList, ".zip".toList),
   ("public/uploads/".toList, ".zip".toList)] ++
    imageSuffixes.flatMap fun ext =>
      [("uploads/".toList, ext), ("public/uploads/".toList, ext)]

/-- Whether an uploaded object key fires the processing Lambda: some
notification rule's prefix and suffix both match the key. -/
def triggerAccepts (key : List Char) : Bool :=
  notificationRules.any fun r =>
    startsWithL r.1 key && endsWithL r.2 key

/-- Whether a name ends, case-insensitively, with one of the accepted image
extensions or `.zip` (the acceptance rule the claim asserts). -/
def endsWithAcceptedCI (name : List Char) : Bool :=
  (".zip".toList :: imageSuffixes).any fun ext => endsWithCIL ext name

/-- Guest permissions of the storage access map. -/
inductive GuestPerm where
  | readP : GuestPerm
  | writeP : GuestPerm
  | deleteP : GuestPerm
  deriving DecidableEq

/-- The storage access map of `defineStorage` in
src/amplify/storage/resource.ts, one entry per path pattern with the
permissions granted to `allow.guest`. -/
def storageAccess : List (List Char × List GuestPerm) :=
  [("public/uploads/*".toList, [GuestPerm.readP, GuestPerm.writeP, GuestPerm.deleteP]),
   ("public/results/*".toList, [GuestPerm.readP]),
   ("public/processed/*".toList, [GuestPerm.readP]),
   ("uploads/*".toList, [GuestPerm.readP, GuestPerm.writeP, GuestPerm.deleteP]),
   ("results/*".toList, [GuestPerm.readP]),
   ("processed/*".toList, [GuestPerm.readP])]

/-! ### SageMaker lifecycle script (src/sagemaker/lifecycle_config_production.sh) -/

/-- State of the runner's shell: whether the processing script exists
locally, the log lines written so far, and whether the processing script
was executed. -/
structure ShellSt where
  localScript : Bool
  logged : List (List Char)
  ranScript : Bool
  deriving DecidableEq

/-- The `aws s3 cp` step: the local file exists afterwards exactly when the
script object is available in S3. -/
def awsS3Cp (s3HasScript : Bool) (st : ShellSt) : ShellSt :=
  { st with localScript := s3HasScript }

/-- The ec2-user shell of the lifecycle configuration, from the copy step
on: copy the script from S3, test `[ ! -f ... ]`, either report the error
and `exit 1`, or run `python3 bird_species_counter_production.py`; returns
the final shell state and the shell's exit status. -/
def runnerShell (s3HasScript : Bool) : ShellSt × Nat :=
  let st0 : ShellSt := { localScript := false, logged := [], ranScript := false }
  let st1 := awsS3Cp s3HasScript st0
  if !st1.localScript then
    ({ st1 with
        logged := st1.logged ++ ["ERROR: Failed to download script from S3".toList] },
      1)
  else
    ({ st1 with ranScript := true }, 0)

/-! ### Primary-table serialization -/

/-- Header row of the primary result table. -/
def headerLine : List Char := "itemName,count".toList

/-- One data row of the primary result table. -/
def rowLine (r : List Char × Nat) : List Char :=
  r.1 ++ ',' :: natRepr r.2

/-- Modelled from the spec: the primary-table serializer (the Lambda
aggregator that writes the CSV is not part of the repository checkout).
Following §6 of the specification, the serialization is delimited text
with header row `itemName,count` and one data row per successfully
processed item, rows separated by newlines. -/
def serializeTable (rows : List (List Char × Nat)) : List Char :=
  List.intercalate ['\n'] (headerLine :: rows.map rowLine)

/-! ### Lemmas about the sort model -/

theorem mem_jsInsert (c : α → α → Int) (x a : α) (l : List α) :
    a ∈ jsInsert c x l ↔ a = x ∨ a ∈ l := by
  induction l with
  | nil => simp [jsInsert]
  | cons y ys ih =>
    simp only [jsInsert]
    split
    · simp [List.mem_cons]
    · simp only [List.mem_cons, ih]
      tauto

theorem jsInsert_perm (c : α → α → Int) (x : α) (l : List α) :
    (jsInsert c x l).Perm (x :: l) := by
  induction l with
  | nil => simp [jsInsert]
  | cons y ys ih =>
    simp only [jsInsert]
    split
    · exact List.Perm.refl _
    · exact (ih.cons y).trans (List.Perm.swap x y ys)

theorem jsSort_perm (c : α → α → Int) (l : List α) :
    (jsSort c l).Perm l := by
  induction l with
  | nil => exact List.Perm.refl _
  | cons x xs ih =>
    exact (jsInsert_perm c x (jsSort c xs)).trans (ih.cons x)

theorem jsInsert_pairwise (k : α → Int) (c : α → α → Int) (x : α) (l : List α)
    (hc : ∀ u ∈ x :: l, ∀ v ∈ x :: l, (c u v ≤ 0 ↔ k v ≤ k u))
    (hp : l.Pairwise fun u v => k v ≤ k u) :
    (jsInsert c x l).Pairwise fun u v => k v ≤ k u := by
  induction l with
  | nil => simp [jsInsert]
  | cons y ys ih =>
    rw [List.pairwise_cons] at hp
    obtain ⟨hy, hys⟩ := hp
    simp only [jsInsert]
    split
    case isTrue hxy =>
      have hkxy : k y ≤ k x :=
        (hc x (by simp) y (by simp)).mp hxy
      refine List.Pairwise.cons ?_ (List.Pairwise.cons hy hys)
      intro z hz
      rcases List.mem_cons.mp hz with rfl | hz'
      · exact hkxy
      · exact le_trans (hy z hz') hkxy
    case isFalse hxy =>
      have hkyx : k x ≤ k y := by
        have hiff := hc x (by simp) y (by simp)
        have : ¬ k y ≤ k x := fun hk => hxy (hiff.mpr hk)
        omega
      refine List.Pairwise.cons ?_ (ih ?_ hys)
      · intro z hz
        rcases (mem_jsInsert c x z ys).mp hz with rfl | hz'
        · exact hkyx
        · exact hy z hz'
      · intro u hu v hv
        refine hc u ?_ v ?_
        · rcases List.mem_cons.mp hu with rfl | hu'
          · simp
          · simp [List.mem_cons, hu']
        · rcases List.mem_cons.mp hv with rfl | hv'
          · simp
          · simp [List.mem_cons, hv']

theorem jsSort_pairwise (k : α → Int) (c : α → α → Int) (l : List α)
    (hc : ∀ u ∈ l, ∀ v ∈ l, (c u v ≤ 0 ↔ k v ≤ k u)) :
    (jsSort c l).Pairwise fun u v => k v ≤ k u := by
  induction l with
  | nil => simp [jsSort]
  | cons x xs ih =>
    simp only [jsSort]
    refine jsInsert_pairwise k c x (jsSort c xs) ?_ ?_
    · intro u hu v hv
      refine hc u ?_ v ?_
      · rcases List.mem_cons.mp hu with rfl | hu'
        · simp
        · exact List.mem_cons_of_mem x ((jsSort_perm c xs).mem_iff.mp hu')
      · rcases List.mem_cons.mp hv with rfl | hv'
        · simp
        · exact List.mem_cons_of_mem x ((jsSort_perm c xs).mem_iff.mp hv')
    · exact ih fun u hu v hv =>
        hc u (List.mem_cons_of_mem x hu) v (List.mem_cons_of_mem x hv)

theorem mem_jsSort (c : α → α → Int) (l : List α) (a : α) :
    a ∈ jsSort c l ↔ a ∈ l :=
  (jsSort_perm c l).mem_iff

/-! ### Lemmas about the discovery model -/

theorem processEntry_store (urlF : List Char → List Char) (e : S3Obj) (st : Store) :
    (processEntry urlF e st).2 = st := by
  simp only [processEntry, downloadOp, getUrlOp]
  cases (st.objs.find? fun o => o.key == e.key).map S3Obj.body with
  | none => rfl
  | some b => cases hp : processBody urlF e b <;> simp [hp]

theorem checkStep_eq (urlF : List Char → List Char) (acc : List ProcResult × Store)
    (e : S3Obj) :
    checkStep urlF acc e =
      (acc.1 ++ ((processEntry urlF e acc.2).1).toList, acc.2) := by
  have hst := processEntry_store urlF e acc.2
  simp only [checkStep]
  rcases hpe : processEntry urlF e acc.2 with ⟨r?, st1⟩
  rw [hpe] at hst
  cases r? <;> simp_all

theorem foldl_checkStep (urlF : List Char → List Char) (l : List S3Obj) :
    ∀ (acc : List ProcResult) (st : Store),
      l.foldl (checkStep urlF) (acc, st) =
        (acc ++ l.filterMap (fun e => (processEntry urlF e st).1), st) := by
  induction l with
  | nil => intro acc st; simp
  | cons x xs ih =>
    intro acc st
    rw [List.foldl_cons, checkStep_eq, ih]
    cases hx : (processEntry urlF x st).1 <;>
      simp [List.filterMap_cons, hx]

/-- The result list of `checkForResults` in closed form: the five most
recent discovered CSVs, each processed against the unchanged store. -/
def checkResultsSpec (urlF : List Char → List Char) (s : Store) : List ProcResult :=
  ((discoveredPrimary s).take 5).filterMap fun e => (processEntry urlF e s).1

theorem checkResults_eq (urlF : List Char → List Char) (s : Store) :
    checkResults urlF s = checkResultsSpec urlF s := by
  by_cases h : (discoveredPrimary s).length = 0
  · have hnil : discoveredPrimary s = [] := List.eq_nil_of_length_eq_zero h
    simp [checkResults, checkForResultsSt, checkResultsSpec, hnil]
  · simp [checkResults, checkForResultsSt, checkResultsSpec, h, foldl_checkStep]

theorem checkForResultsSt_store (urlF : List Char → List Char) (s : Store) :
    (checkForResultsSt urlF s).2 = s := by
  by_cases h : (discoveredPrimary s).length = 0
  · simp [checkForResultsSt, h]
  · simp [checkForResultsSt, h, foldl_checkStep]

/-! ### Decimal rendering and parsing round trip -/

theorem isDigitC_digitChar (m : Nat) : isDigitC (digitChar m) = true := by
  rcases m with _|_|_|_|_|_|_|_|_|m
  case succ.succ.succ.succ.succ.succ.succ.succ.succ =>
    exact (by decide : isDigitC '9' = true)
  all_goals decide

theorem digitVal_digitChar (m : Nat) (h : m < 10) : digitVal (digitChar m) = m := by
  interval_cases m <;> decide

theorem isDigitC_not_ws (c : Char) (h : isDigitC c = true) : isWSChar c = false := by
  by_contra hw
  have hw' : isWSChar c = true := by
    cases hx : isWSChar c
    · exact absurd hx hw
    · rfl
  simp only [isWSChar, Bool.or_eq_true, beq_iff_eq] at hw'
  rcases hw' with (((((rfl | rfl) | rfl) | rfl) | rfl) | rfl) <;>
    exact absurd h (by decide)

theorem isDigitC_ne_special (c : Char) (h : isDigitC c = true) :
    c ≠ ',' ∧ c ≠ '\n' ∧ c ≠ ':' ∧ c ≠ '.' := by
  refine ⟨?_, ?_, ?_, ?_⟩ <;> rintro rfl <;> exact absurd h (by decide)

theorem natToRevDigitsAux_all_digits :
    ∀ (fuel n : Nat), ∀ c ∈ natToRevDigitsAux fuel n, isDigitC c = true := by
  intro fuel
  induction fuel with
  | zero => intro n c hc; simp [natToRevDigitsAux] at hc
  | succ f ih =>
    intro n c hc
    simp only [natToRevDigitsAux] at hc
    split at hc
    · rcases List.mem_cons.mp hc with rfl | hc'
      · exact isDigitC_digitChar n
      · cases hc'
    · rcases List.mem_cons.mp hc with rfl | hc'
      · exact isDigitC_digitChar (n % 10)
      · exact ih (n / 10) c hc'

theorem natRepr_all_digits (n : Nat) : ∀ c ∈ natRepr n, isDigitC c = true := by
  intro c hc
  exact natToRevDigitsAux_all_digits (n + 1) n c (List.mem_reverse.mp hc)

theorem natRepr_ne_nil (n : Nat) : natRepr n ≠ [] := by
  intro h
  have h2 : natToRevDigitsAux (n + 1) n = [] := by
    have := congrArg List.reverse h
    simpa [natRepr] using this
  rw [natToRevDigitsAux] at h2
  split at h2 <;> cases h2

theorem foldr_natToRevDigitsAux :
    ∀ (fuel n : Nat), n < fuel →
      (natToRevDigitsAux fuel n).foldr (fun c a => 10 * a + digitVal c) 0 = n := by
  intro fuel
  induction fuel with
  | zero => intro n h; omega
  | succ f ih =>
    intro n h
    rw [natToRevDigitsAux]
    split
    case isTrue h10 =>
      simp [digitVal_digitChar n h10]
    case isFalse h10 =>
      have h1 : n / 10 < n := Nat.div_lt_self (by omega) (by omega)
      rw [List.foldr_cons, ih (n / 10) (by omega),
        digitVal_digitChar (n % 10) (Nat.mod_lt n (by omega))]
      omega

theorem digitsVal_natRepr (n : Nat) : digitsVal (natRepr n) = n := by
  unfold digitsVal natRepr
  rw [List.foldl_reverse]
  exact foldr_natToRevDigitsAux (n + 1) n (by omega)

theorem natRepr_isEmpty (n : Nat) : (natRepr n).isEmpty = false := by
  cases hr : natRepr n with
  | nil => exact absurd hr (natRepr_ne_nil n)
  | cons c cs => rfl

theorem jsParseInt_natRepr (n : Nat) : jsParseInt (natRepr n) = some n := by
  have hdig := natRepr_all_digits n
  have hdrop : (natRepr n).dropWhile isWSChar = natRepr n := by
    cases hr : natRepr n with
    | nil => simp
    | cons c cs =>
      have hc : isDigitC c = true := by
        refine hdig c ?_
        rw [hr]; exact List.mem_cons_self c cs
      rw [List.dropWhile_cons, isDigitC_not_ws c hc]
      simp
  have htake : (natRepr n).takeWhile isDigitC = natRepr n :=
    List.takeWhile_eq_self_iff.mpr hdig
  simp [jsParseInt, hdrop, htake, natRepr_isEmpty, digitsVal_natRepr]

/-! ### Serialization round trip -/

theorem intercalate_pair (a b : List Char) (sep : Char) :
    List.intercalate [sep] [a, b] = a ++ sep :: b := by
  simp [List.intercalate]

theorem rowLine_splitOn (r : List Char × Nat) (h : ',' ∉ r.1) :
    (rowLine r).splitOn ',' = [r.1, natRepr r.2] := by
  have hnc : ∀ l ∈ [r.1, natRepr r.2], ',' ∉ l := by
    intro l hl
    rcases List.mem_cons.mp hl with rfl | hl'
    · exact h
    · rcases List.mem_cons.mp hl' with rfl | hl''
      · intro hc
        exact absurd (natRepr_all_digits r.2 ',' hc) (by decide)
      · cases hl''
  have heq : rowLine r = List.intercalate [','] [r.1, natRepr r.2] := by
    rw [intercalate_pair]; rfl
  rw [heq, List.splitOn_intercalate [r.1, natRepr r.2] ',' hnc (by simp)]

theorem mem_dropWhile_of_not (p : Char → Bool) (c : Char) (l : List Char)
    (hm : c ∈ l) (hc : p c = false) : c ∈ l.dropWhile p := by
  induction l with
  | nil => cases hm
  | cons x xs ih =>
    rw [List.dropWhile_cons]
    by_cases hx : p x = true
    · simp only [hx, if_true]
      rcases List.mem_cons.mp hm with rfl | hm'
      · rw [hx] at hc; cases hc
      · exact ih hm'
    · simp only [Bool.not_eq_true] at hx
      simp only [hx, Bool.false_eq_true, if_false]
      exact hm

theorem trim_isEmpty_false_of_mem (c : Char) (l : List Char)
    (hm : c ∈ l) (hc : isWSChar c = false) : (trimJS l).isEmpty = false := by
  have h1 : c ∈ l.dropWhile isWSChar := mem_dropWhile_of_not _ _ _ hm hc
  have h2 : c ∈ (l.dropWhile isWSChar).reverse := List.mem_reverse.mpr h1
  have h3 : c ∈ (l.dropWhile isWSChar).reverse.dropWhile isWSChar :=
    mem_dropWhile_of_not _ _ _ h2 hc
  have h4 : c ∈ trimJS l := by
    unfold trimJS
    exact List.mem_reverse.mpr h3
  cases hl : trimJS l with
  | nil => rw [hl] at h4; cases h4
  | cons a as => rfl

theorem csvLines_serialize (rows : List (List Char × Nat))
    (h : ∀ r ∈ rows, r.1 ≠ [] ∧ ',' ∉ r.1 ∧ '\n' ∉ r.1) :
    csvLines (serializeTable rows) = headerLine :: rows.map rowLine := by
  have hn : ∀ l ∈ headerLine :: rows.map rowLine, '\n' ∉ l := by
    intro l hl
    rcases List.mem_cons.mp hl with rfl | hl'
    · decide
    · obtain ⟨r, hr, rfl⟩ := List.mem_map.mp hl'
      intro hmem
      unfold rowLine at hmem
      rcases List.mem_append.mp hmem with hmem1 | hmem2
      · exact absurd hmem1 (h r hr).2.2
      · rcases List.mem_cons.mp hmem2 with heq | hmem3
        · cases heq
        · exact absurd (natRepr_all_digits r.2 '\n' hmem3) (by decide)
  have hsplit : (serializeTable rows).splitOn '\n' = headerLine :: rows.map rowLine := by
    unfold serializeTable
    exact List.splitOn_intercalate (headerLine :: rows.map rowLine) '\n' hn (by simp)
  unfold csvLines
  rw [hsplit]
  refine List.filter_eq_self.mpr ?_
  intro l hl
  rcases List.mem_cons.mp hl with rfl | hl'
  · decide
  · obtain ⟨r, hr, rfl⟩ := List.mem_map.mp hl'
    have hcm : ',' ∈ rowLine r := by
      unfold rowLine
      exact List.mem_append.mpr (Or.inr (List.mem_cons_self _ _))
    rw [trim_isEmpty_false_of_mem ',' (rowLine r) hcm (by decide)]
    rfl

theorem parsePair_rowLine (r : List Char × Nat) (hne : r.1 ≠ []) (hc : ',' ∉ r.1) :
    parsePair (rowLine r) = some r := by
  unfold parsePair
  rw [rowLine_splitOn r hc]
  have h1 : r.1.isEmpty = false := by
    cases hr : r.1 with
    | nil => exact absurd hr hne
    | cons a as => rfl
  simp [h1, natRepr_isEmpty, jsParseInt_natRepr]

theorem filterMap_parsePair_rows (rows : List (List Char × Nat))
    (h : ∀ r ∈ rows, r.1 ≠ [] ∧ ',' ∉ r.1) :
    (rows.map rowLine).filterMap parsePair = rows := by
  induction rows with
  | nil => simp
  | cons r rs ih =>
    have hr := h r (List.mem_cons_self r rs)
    rw [List.map_cons, List.filterMap_cons, parsePair_rowLine r hr.1 hr.2]
    rw [ih fun x hx => h x (List.mem_cons_of_mem r hx)]

/-! ### Injectivity of the upload key derivation -/

theorem sanitizeChar_digit (c : Char) (h : isDigitC c = true) : sanitizeChar c = c := by
  obtain ⟨_, _, h3, h4⟩ := isDigitC_ne_special c h
  simp [sanitizeChar, h3, h4]

theorem matchesShape_length :
    ∀ (ps : List CharShape) (t : List Char), matchesShape ps t = true →
      t.length = ps.length := by
  intro ps
  induction ps with
  | nil =>
    intro t h
    cases t with
    | nil => rfl
    | cons c cs => simp [matchesShape] at h
  | cons p ps ih =>
    intro t h
    cases t with
    | nil => cases p <;> simp [matchesShape] at h
    | cons c cs =>
      cases p with
      | digit =>
        rw [matchesShape, Bool.and_eq_true] at h
        simp [ih cs h.2]
      | lit a =>
        rw [matchesShape, Bool.and_eq_true] at h
        simp [ih cs h.2]

theorem matches_sanitize_inj :
    ∀ (ps : List CharShape) (t1 t2 : List Char),
      matchesShape ps t1 = true → matchesShape ps t2 = true →
      sanitizeTs t1 = sanitizeTs t2 → t1 = t2 := by
  intro ps
  induction ps with
  | nil =>
    intro t1 t2 h1 h2 _
    cases t1 with
    | nil =>
      cases t2 with
      | nil => rfl
      | cons c2 r2 => simp [matchesShape] at h2
    | cons c1 r1 => simp [matchesShape] at h1
  | cons p ps ih =>
    intro t1 t2 h1 h2 hs
    cases t1 with
    | nil => cases p <;> simp [matchesShape] at h1
    | cons c1 r1 =>
      cases t2 with
      | nil => cases p <;> simp [matchesShape] at h2
      | cons c2 r2 =>
        have hs' : sanitizeChar c1 = sanitizeChar c2 ∧ sanitizeTs r1 = sanitizeTs r2 := by
          simpa [sanitizeTs] using hs
        cases p with
        | digit =>
          rw [matchesShape, Bool.and_eq_true] at h1 h2
          have hc : c1 = c2 := by
            rw [← sanitizeChar_digit c1 h1.1, ← sanitizeChar_digit c2 h2.1]
            exact hs'.1
          rw [hc, ih r1 r2 h1.2 h2.2 hs'.2]
        | lit a =>
          rw [matchesShape, Bool.and_eq_true] at h1 h2
          have ha1 : a = c1 := by exact_mod_cast beq_iff_eq.mp h1.1
          have ha2 : a = c2 := by exact_mod_cast beq_iff_eq.mp h2.1
          have hc : c1 = c2 := ha1 ▸ ha2
          rw [hc, ih r1 r2 h1.2 h2.2 hs'.2]

theorem isoShape_length (t : List Char) (h : isoShape t = true) : t.length = 24 :=
  (matchesShape_length isoSpec t h).trans (by rfl)

theorem deriveKey_inj (t1 n1 t2 n2 : List Char)
    (h1 : isoShape t1 = true) (h2 : isoShape t2 = true)
    (heq : deriveKey t1 n1 = deriveKey t2 n2) : t1 = t2 ∧ n1 = n2 := by
  unfold deriveKey at heq
  have hlen : (sanitizeTs t1).length = (sanitizeTs t2).length := by
    simp [sanitizeTs, isoShape_length t1 h1, isoShape_length t2 h2]
  have heq2 : sanitizeTs t1 ++ '-' :: n1 = sanitizeTs t2 ++ '-' :: n2 := by
    have heq' := heq
    simp only [List.append_assoc] at heq'
    exact List.append_cancel_left heq'
  obtain ⟨hA, hB⟩ := List.append_inj heq2 hlen
  have hn : n1 = n2 := by simpa using hB
  exact ⟨matches_sanitize_inj isoSpec t1 t2 h1 h2 hA, hn⟩

/-! ### Sortedness of the discovery listings -/

theorem discoveredPrimary_sorted (s : Store) :
    (discoveredPrimary s).Pairwise fun u v => effDate v ≤ effDate u := by
  have h := jsSort_pairwise (fun e => (effDate e : Int)) cmpPrimary
    (((listOp ("public/results/".toList) s).1).filter fun e =>
      endsWithL (".csv".toList) e.key)
    (fun u _ v _ => by simp only [cmpPrimary]; omega)
  refine h.imp ?_
  intro a b hk
  simpa using hk

theorem mem_discoveredPrimary (s : Store) (e : S3Obj) :
    e ∈ discoveredPrimary s ↔
      e ∈ ((listOp ("public/results/".toList) s).1).filter fun o =>
        endsWithL (".csv".toList) o.key :=
  mem_jsSort _ _ _

theorem loadCSVFiles_mem (urlF : List Char → List Char) (s : Store) (f : CsvFileM) :
    f ∈ loadCSVFiles urlF s ↔
      ∃ e ∈ ((listOp ("public/results/".toList) s).1).filter enhancedPred,
        f = { path := e.key, lastModified := e.lastModified, size := e.size,
              downloadUrl := some (urlF e.key) } := by
  unfold loadCSVFiles
  rw [mem_jsSort]
  rw [List.mem_map]
  constructor
  · rintro ⟨e, he, rfl⟩; exact ⟨e, he, rfl⟩
  · rintro ⟨e, he, rfl⟩; exact ⟨e, he, rfl⟩

theorem loadCSVFiles_sorted (urlF : List Char → List Char) (s : Store)
    (hall : ∀ e ∈ ((listOp ("public/results/".toList) s).1).filter enhancedPred,
      e.lastModified.isSome = true) :
    (loadCSVFiles urlF s).Pairwise fun u v =>
      v.lastModified.getD 0 ≤ u.lastModified.getD 0 := by
  unfold loadCSVFiles
  have h := jsSort_pairwise (fun f => ((f.lastModified.getD 0 : Nat) : Int)) cmpEnhanced
    ((((listOp ("public/results/".toList) s).1).filter enhancedPred).map fun e =>
      { path := e.key, lastModified := e.lastModified, size := e.size,
        downloadUrl := some (urlF e.key) : CsvFileM })
    ?_
  · refine h.imp ?_
    intro a b hk
    simpa using hk
  · intro u hu v hv
    obtain ⟨eu, heu, rfl⟩ := List.mem_map.mp hu
    obtain ⟨ev, hev, rfl⟩ := List.mem_map.mp hv
    obtain ⟨tu, htu⟩ := Option.isSome_iff_exists.mp (hall eu heu)
    obtain ⟨tv, htv⟩ := Option.isSome_iff_exists.mp (hall ev hev)
    simp only [cmpEnhanced, htu, htv, Option.getD_some]
    omega

/-! ### Characterization of the per-file processing step -/

theorem processEntry_some (urlF : List Char → List Char) (e : S3Obj) (st : Store)
    (b : List Char) (hb : (downloadOp e.key st).1 = some b)
    (hlen : 2 ≤ (csvLines b).length) :
    ∃ r, (processEntry urlF e st).1 = some r ∧ r.csvKey = e.key := by
  have hb' : (st.objs.find? fun o => o.key == e.key).map S3Obj.body = some b := by
    simpa [downloadOp] using hb
  have hnl : ¬ (csvLines b).length < 2 := by omega
  simp only [processEntry, downloadOp, getUrlOp, hb', processBody, if_neg hnl]
  exact ⟨_, rfl, rfl⟩

theorem processEntry_inv (urlF : List Char → List Char) (e : S3Obj) (st : Store)
    (r : ProcResult) (h : (processEntry urlF e st).1 = some r) :
    r.csvKey = e.key ∧
      ∃ b, (downloadOp e.key st).1 = some b ∧ 2 ≤ (csvLines b).length := by
  rcases hb : (st.objs.find? fun o => o.key == e.key).map S3Obj.body with _ | b
  · simp [processEntry, downloadOp, hb] at h
  · by_cases hlen : (csvLines b).length < 2
    · simp [processEntry, downloadOp, processBody, hb, if_pos hlen] at h
    · simp only [processEntry, downloadOp, getUrlOp, processBody, hb, if_neg hlen] at h
      have hkey : r.csvKey = e.key := by
        rw [← Option.some_inj.mp h]
      exact ⟨hkey, b, by simpa [downloadOp] using hb, by omega⟩

/-! ### Concrete fixtures used by witnesses and counterexamples -/

/-- A published primary table with two data rows. -/
def sampleCsvObj : S3Obj :=
  { key := "public/results/bird-results-x.csv".toList
    lastModified := some 100
    size := some 30
    body := "itemName,count\na.jpg,2\nb.png,5".toList }

/-- A published primary table containing only the header row. -/
def headerOnlyObj : S3Obj :=
  { key := "public/results/bird-results-empty.csv".toList
    lastModified := some 200
    size := some 14
    body := "itemName,count".toList }

/-- An enhanced table entry whose listing carries no last-modified time. -/
def enhNoDateObj : S3Obj :=
  { key := "public/results/enhanced_bird_results_a.csv".toList
    lastModified := none
    size := none
    body := [] }

/-- An enhanced table entry last modified at 5 ms after the epoch. -/
def enhDatedObj : S3Obj :=
  { key := "public/results/enhanced_bird_results_b.csv".toList
    lastModified := some 5
    size := none
    body := [] }

/-- A concrete presigned-URL service for evaluating the models. -/
def sampleUrlF : List Char → List Char := fun k => 'u' :: k

/-- The result entry `checkForResults` produces for `sampleCsvObj`. -/
def sampleResult : ProcResult :=
  { filename := "2 images processed".toList
    birdCount := 7
    extractionFolder := "public/results/bird-results-x.csv".toList
    csvKey := "public/results/bird-results-x.csv".toList
    downloadUrl := 'u' :: "public/results/bird-results-x.csv".toList
    timestamp := "x".toList }

/-! ### Claim theorems -/

/-- C1, counterexample: a store holding exactly one published
PrimaryResultTable that consists of the header row alone (a `.csv` object
whose body has a single non-blank line) produces an empty list at
`onResultsFound`: the `lines.length < 2` guard in `checkForResults` skips
header-only tables, so the delivered list contains no entry for this
table, contradicting the claim. -/
theorem claimC1_counterexample :
    endsWithL (".csv".toList) headerOnlyObj.key = true ∧
    (csvLines headerOnlyObj.body).length = 1 ∧
    checkResults sampleUrlF (Store.mk [headerOnlyObj]) = [] := by decide

/-- C1 (amended): the list delivered to `onResultsFound` contains an entry
for a published table exactly when the table is among the five most
recently modified CSVs of the results namespace and its downloaded body has
at least two non-blank lines (the header plus at least one data row);
header-only tables are skipped, so a consumer cannot distinguish
`processed, zero usable results` from `never processed` through this
client. -/
theorem claimC1_theorem (urlF : List Char → List Char) (s : Store) :
    (∀ e ∈ (discoveredPrimary s).take 5, ∀ b, (downloadOp e.key s).1 = some b →
      2 ≤ (csvLines b).length → ∃ r ∈ checkResults urlF s, r.csvKey = e.key) ∧
    (∀ r ∈ checkResults urlF s, ∃ e ∈ (discoveredPrimary s).take 5,
      r.csvKey = e.key ∧
        ∃ b, (downloadOp e.key s).1 = some b ∧ 2 ≤ (csvLines b).length) := by
  constructor
  · intro e he b hb hlen
    obtain ⟨r, hr1, hr2⟩ := processEntry_some urlF e s b hb hlen
    rw [checkResults_eq]
    unfold checkResultsSpec
    exact ⟨r, List.mem_filterMap.mpr ⟨e, he, hr1⟩, hr2⟩
  · intro r hr
    rw [checkResults_eq] at hr
    unfold checkResultsSpec at hr
    obtain ⟨e, he, hpe⟩ := List.mem_filterMap.mp hr
    obtain ⟨hkey, hb⟩ := processEntry_inv urlF e s r hpe
    exact ⟨e, he, hkey, hb⟩

/-- C1 witness: in a store holding one two-row table, the delivered list
contains an entry for it. -/
theorem claimC1_witness :
    ∃ r ∈ checkResults sampleUrlF (Store.mk [sampleCsvObj]),
      r.csvKey = sampleCsvObj.key :=
  (claimC1_theorem sampleUrlF (Store.mk [sampleCsvObj])).1 sampleCsvObj
    (by decide) ("itemName,count\na.jpg,2\nb.png,5".toList) (by decide) (by decide)

/-- C2, counterexample: in the enhanced listing, an entry with no
last-modified time does not sort as the epoch.  With one dateless entry
listed before an entry dated 5 ms after the epoch, `loadCSVFiles` keeps the
dateless entry first (its comparator result is `NaN`, coerced to `+0`, so
the stable sort leaves it in place), whereas sorting by descending time
with the epoch default would put the dated entry first; the delivered order
is ascending in effective date, contradicting the claim. -/
theorem claimC2_counterexample :
    ((loadCSVFiles sampleUrlF (Store.mk [enhNoDateObj, enhDatedObj])).map
      fun f => f.lastModified.getD 0) = [0, 5] ∧
    ¬ ((loadCSVFiles sampleUrlF (Store.mk [enhNoDateObj, enhDatedObj])).Pairwise
      fun u v => v.lastModified.getD 0 ≤ u.lastModified.getD 0) := by decide

/-- C2 (amended): the primary discovery returns only keys ending in `.csv`,
ordered by descending last-modified time with a missing time sorting as the
epoch; the enhanced discovery returns only paths containing
`enhanced_bird_results` and ending in `.csv`, and is ordered by descending
last-modified time whenever every matching entry carries a last-modified
time — an enhanced entry with no last-modified time instead compares equal
to every other entry (`NaN` comparator result) and keeps its listing
position rather than sorting as the epoch. -/
theorem claimC2_theorem (s : Store) (urlF : List Char → List Char) :
    (∀ e ∈ discoveredPrimary s, endsWithL (".csv".toList) e.key = true) ∧
    ((discoveredPrimary s).Pairwise fun u v => effDate v ≤ effDate u) ∧
    (∀ f ∈ loadCSVFiles urlF s,
      (containsSub ("enhanced_bird_results".toList) f.path &&
        endsWithL (".csv".toList) f.path) = true) ∧
    ((∀ e ∈ ((listOp ("public/results/".toList) s).1).filter enhancedPred,
        e.lastModified.isSome = true) →
      (loadCSVFiles urlF s).Pairwise fun u v =>
        v.lastModified.getD 0 ≤ u.lastModified.getD 0) := by
  refine ⟨?_, discoveredPrimary_sorted s, ?_, loadCSVFiles_sorted urlF s⟩
  · intro e he
    simpa using (List.mem_filter.mp ((mem_discoveredPrimary s e).mp he)).2
  · intro f hf
    obtain ⟨e, he, rfl⟩ := (loadCSVFiles_mem urlF s f).mp hf
    simpa [enhancedPred] using (List.mem_filter.mp he).2

/-- C2 witness: on a store holding one dated primary table and one dated
enhanced table, the filter and order conclusions hold concretely. -/
theorem claimC2_witness :
    endsWithL (".csv".toList) sampleCsvObj.key = true ∧
    ((loadCSVFiles sampleUrlF (Store.mk [sampleCsvObj, enhDatedObj])).Pairwise
      fun u v => v.lastModified.getD 0 ≤ u.lastModified.getD 0) :=
  ⟨(claimC2_theorem (Store.mk [sampleCsvObj, enhDatedObj]) sampleUrlF).1
      sampleCsvObj (by decide),
   (claimC2_theorem (Store.mk [sampleCsvObj, enhDatedObj]) sampleUrlF).2.2.2
      (by decide)⟩

/-- C3: the Discovery operation is a pure read and is idempotent: it
returns the store unchanged, and a second call on the state left by the
first returns the identical result sequence (same entries, same fields,
same order). -/
theorem claimC3_theorem (urlF : List Char → List Char) (s : Store) :
    (checkForResultsSt urlF s).2 = s ∧
    (checkForResultsSt urlF ((checkForResultsSt urlF s).2)).1 =
      (checkForResultsSt urlF s).1 := by
  refine ⟨checkForResultsSt_store urlF s, ?_⟩
  rw [checkForResultsSt_store urlF s]

/-- C4, counterexample: acceptance at the pipeline entry is not
case-insensitive.  The name `bird.JPG` ends case-insensitively with an
accepted image extension, but an upload of it under `uploads/` or
`public/uploads/` fires no notification rule, because the configured S3
suffix filters match literally. -/
theorem claimC4_counterexample :
    endsWithAcceptedCI ("bird.JPG".toList) = true ∧
    triggerAccepts ("uploads/bird.JPG".toList) = false ∧
    triggerAccepts ("public/uploads/bird.JPG".toList) = false := by decide

set_option maxHeartbeats 1000000 in
/-- C4 (amended): an uploaded object key fires the processing Lambda if
and only if it lies under `uploads/` or `public/uploads/` and ends,
case-sensitively, with `.zip` or one of the lower-case image extensions
`.jpg`, `.jpeg`, `.png`, `.gif`, `.bmp`; keys matching no rule fire
nothing. -/
theorem claimC4_theorem (key : List Char) :
    triggerAccepts key = true ↔
      ((startsWithL ("uploads/".toList) key = true ∨
        startsWithL ("public/uploads/".toList) key = true) ∧
       (endsWithL (".zip".toList) key = true ∨
        endsWithL (".jpg".toList) key = true ∨
        endsWithL (".jpeg".toList) key = true ∨
        endsWithL (".png".toList) key = true ∨
        endsWithL (".gif".toList) key = true ∨
        endsWithL (".bmp".toList) key = true)) := by
  simp only [triggerAccepts, notificationRules, imageSuffixes,
    List.flatMap_cons, List.flatMap_nil, List.append_nil, List.cons_append,
    List.nil_append, List.any_cons, List.any_nil, Bool.or_eq_true,
    Bool.and_eq_true, Bool.or_false]
  tauto

/-- C4 witness: a lower-case zip key under `uploads/` fires the trigger. -/
theorem claimC4_witness : triggerAccepts ("uploads/a.zip".toList) = true :=
  (claimC4_theorem ("uploads/a.zip".toList)).mpr (by decide)

/-- C5: the derived object key is `uploads/` ++ the ISO timestamp with
every colon and period replaced by a dash ++ `-` ++ the original name, and
on well-formed `toISOString` renderings the derivation is injective in the
(timestamp, name) pair, so two uploads whose pairs differ receive distinct
keys and never overwrite one another. -/
theorem claimC5_theorem (t1 n1 t2 n2 : List Char)
    (h1 : isoShape t1 = true) (h2 : isoShape t2 = true)
    (hne : (t1, n1) ≠ (t2, n2)) :
    deriveKey t1 n1 ≠ deriveKey t2 n2 := by
  intro heq
  obtain ⟨ht, hn⟩ := deriveKey_inj t1 n1 t2 n2 h1 h2 heq
  exact hne (by rw [ht, hn])

/-- C5 witness: two uploads one millisecond apart with the same file name
receive distinct keys. -/
theorem claimC5_witness :
    deriveKey ("2024-01-02T03:04:05.678Z".toList) ("a.zip".toList) ≠
      deriveKey ("2024-01-02T03:04:05.679Z".toList) ("a.zip".toList) :=
  claimC5_theorem ("2024-01-02T03:04:05.678Z".toList) ("a.zip".toList)
    ("2024-01-02T03:04:05.679Z".toList) ("a.zip".toList)
    (by decide) (by decide) (by decide)

/-- C6: serializing a PrimaryResultTable (header `itemName,count`, one data
row per item) and parsing the text back with the `checkForResults` parsing
loop yields exactly the same `(itemName, count)` pairs, for every table
whose item names are non-empty and free of commas and newlines (names that
fit the delimited format). -/
theorem claimC6_theorem (rows : List (List Char × Nat))
    (h : ∀ r ∈ rows, r.1 ≠ [] ∧ ',' ∉ r.1 ∧ '\n' ∉ r.1) :
    parseDataPairs (serializeTable rows) = rows := by
  unfold parseDataPairs
  rw [csvLines_serialize rows h]
  have hdrop : (headerLine :: rows.map rowLine).drop 1 = rows.map rowLine := rfl
  rw [hdrop]
  exact filterMap_parsePair_rows rows fun r hr => ⟨(h r hr).1, (h r hr).2.1⟩

/-- C6 witness: a two-row table round-trips. -/
theorem claimC6_witness :
    parseDataPairs (serializeTable [("a.jpg".toList, 2), ("b.png".toList, 5)]) =
      [("a.jpg".toList, 2), ("b.png".toList, 5)] :=
  claimC6_theorem [("a.jpg".toList, 2), ("b.png".toList, 5)] (by decide)

/-- C7: when the results namespace contains no matching tables, both
discovery clients deliver an empty sequence (and, the models being total
functions, raise no error). -/
theorem claimC7_theorem (urlF : List Char → List Char) (s : Store) :
    ((((listOp ("public/results/".toList) s).1).filter fun e =>
        endsWithL (".csv".toList) e.key) = [] → checkResults urlF s = []) ∧
    ((((listOp ("public/results/".toList) s).1).filter enhancedPred) = [] →
      loadCSVFiles urlF s = []) := by
  constructor
  · intro h
    have hd : discoveredPrimary s = [] := by
      unfold discoveredPrimary
      rw [h]
      rfl
    simp [checkResults, checkForResultsSt, hd]
  · intro h
    unfold loadCSVFiles
    rw [h]
    rfl

/-- C7 witness: on the empty store both clients deliver the empty list. -/
theorem claimC7_witness :
    checkResults sampleUrlF (Store.mk []) = [] ∧
    loadCSVFiles sampleUrlF (Store.mk []) = [] :=
  ⟨(claimC7_theorem sampleUrlF (Store.mk [])).1 (by decide),
   (claimC7_theorem sampleUrlF (Store.mk [])).2 (by decide)⟩

/-- C8: if the processing script is absent from S3, the copy step leaves no
local file, the runner's shell logs the error line and exits with status 1
without running the processing script; when the script is available it runs
and the shell exits 0, so the fetch failure is never silently skipped. -/
theorem claimC8_theorem :
    (runnerShell false).2 = 1 ∧
    (runnerShell false).1.ranScript = false ∧
    ("ERROR: Failed to download script from S3".toList) ∈
      (runnerShell false).1.logged ∧
    (runnerShell true).2 = 0 ∧
    (runnerShell true).1.ranScript = true := by decide

/-- C9: the Discovery client reports at most five entries, and every
reported entry corresponds to one of the five most recently modified CSV
files of the results namespace, for every store state. -/
theorem claimC9_theorem (urlF : List Char → List Char) (s : Store) :
    (checkResults urlF s).length ≤ 5 ∧
    ∀ r ∈ checkResults urlF s, ∃ e ∈ (discoveredPrimary s).take 5,
      r.csvKey = e.key := by
  constructor
  · rw [checkResults_eq]
    unfold checkResultsSpec
    exact le_trans (List.length_filterMap_le _ _) (List.length_take_le ..)
  · intro r hr
    rw [checkResults_eq] at hr
    unfold checkResultsSpec at hr
    obtain ⟨e, he, hpe⟩ := List.mem_filterMap.mp hr
    exact ⟨e, he, (processEntry_inv urlF e s r hpe).1⟩

/-- C9 witness: the entry reported for the sample store corresponds to a
file among the five most recent CSVs. -/
theorem claimC9_witness :
    ∃ e ∈ (discoveredPrimary (Store.mk [sampleCsvObj])).take 5,
      sampleResult.csvKey = e.key :=
  (claimC9_theorem sampleUrlF (Store.mk [sampleCsvObj])).2 sampleResult (by decide)

/-- C10: in the storage access map, a guest holds write or delete
permission exactly on the two uploads path patterns, and each of the
results and processed path patterns grants guests the read permission
alone, so published result tables cannot be mutated through the client
surface. -/
theorem claimC10_theorem (pr : List Char × List GuestPerm)
    (h : pr ∈ storageAccess) :
    ((GuestPerm.writeP ∈ pr.2 ∨ GuestPerm.deleteP ∈ pr.2) ↔
      (pr.1 = "uploads/*".toList ∨ pr.1 = "public/uploads/*".toList)) ∧
    ((pr.1 = "results/*".toList ∨ pr.1 = "processed/*".toList ∨
      pr.1 = "public/results/*".toList ∨ pr.1 = "public/processed/*".toList) →
      pr.2 = [GuestPerm.readP]) := by
  fin_cases h <;> constructor <;> decide

/-- C10 witness: the `results/*` rule grants read only. -/
theorem claimC10_witness :
    (("results/*".toList, [GuestPerm.readP]) : List Char × List GuestPerm).2 =
      [GuestPerm.readP] :=
  (claimC10_theorem ("results/*".toList, [GuestPerm.readP]) (by decide)).2
    (by decide)

end BirdPipeline
